import Mathlib

/-!
Verification of the neogma query-compiler core: the Clause Compiler
(`QueryBuilder`), the Predicate Compiler (`Where`) and the Bind-Parameter
Table (`BindParam`), shallowly embedded from the TypeScript sources
`src/Queries/Where/Where.ts` and `src/QueryBuilder/QueryBuilder.ts`.
The `BindParam` class, the `QueryRunner` serialization helpers and the
runtime type guards of `QueryBuilder.types` are not present in the source
tree; they are modelled from the specification and marked as such.
-/

namespace Neogma

/-- A single Neo4j scalar value: string, number, boolean, or a
driver-integer (what `int(x)` of the neo4j driver produces). The
temporal/spatial kinds behave identically for compilation purposes. -/
inductive NeoSingle where
  | str (s : String)
  | num (n : Int)
  | boolVal (b : Bool)
  | neoInt (n : Int)
deriving DecidableEq, Repr

/-- A Neo4j supported value: a single scalar or an array of scalars
(`Neo4jSupportedTypes` in the source). -/
inductive NeoValue where
  | single (v : NeoSingle)
  | list (l : List NeoSingle)
deriving DecidableEq, Repr

/-- Digit character for a decimal digit. -/
def digitChar : Nat → Char
  | 0 => '0'
  | 1 => '1'
  | 2 => '2'
  | 3 => '3'
  | 4 => '4'
  | 5 => '5'
  | 6 => '6'
  | 7 => '7'
  | 8 => '8'
  | _ => '9'

/-- Numeric value of a digit character. -/
def digitVal (c : Char) : Nat := c.toNat - 48

/-- Little-endian decimal digits of `n`, with explicit fuel. -/
def decChars : Nat → Nat → List Char
  | 0, _ => []
  | fuel + 1, n =>
    if n < 10 then [digitChar n]
    else digitChar (n % 10) :: decChars fuel (n / 10)

/-- Decimal rendering of a natural number. -/
def decimal (n : Nat) : String := ⟨(decChars (n + 1) n).reverse⟩

/-- Value of a little-endian digit list. -/
def decValLE : List Char → Nat
  | [] => 0
  | c :: cs => digitVal c + 10 * decValLE cs

/-- Modelled from the spec: the name sanitization of
`BindParam.getUniqueNameAndAdd` (§4.1, "sanitizing to a valid placeholder
identifier"); the `BindParam` class is not under src/. Keeps letters,
digits and underscores. -/
def sanitizeName (s : String) : String :=
  ⟨s.data.filter (fun c => c.isAlphanum || c = '_')⟩

/-- Modelled from the spec: the numeric-suffix search of
`BindParam.getUniqueNameAndAdd` (§4.1, "appends a numeric suffix if the
candidate already exists in the table"); the `BindParam` class is not
under src/. Tries `base__k`, `base__(k+1)`, ... until a free name is
found, with explicit fuel. -/
def findFree (names : List String) (base : String) : Nat → Nat → String
  | _, 0 => base ++ "__" ++ decimal 0
  | k, fuel + 1 =>
    let cand := base ++ "__" ++ decimal k
    if cand ∈ names then findFree names base (k + 1) fuel else cand

/-- Modelled from the spec: the Bind-Parameter Table (`BindParam` class,
§4.1), which is not under src/. An insertion-ordered list of
(generated name, value) entries. -/
structure BindParam where
  entries : List (String × NeoValue)
deriving DecidableEq, Repr

/-- The generated names registered in the table, in insertion order. -/
def BindParam.names (bp : BindParam) : List String := bp.entries.map Prod.fst

/-- Modelled from the spec: name generation of
`BindParam.getUniqueNameAndAdd` (§4.1); the `BindParam` class is not
under src/. The sanitized base name is used directly when free, else a
numeric suffix is appended. -/
def getUniqueName (names : List String) (baseName : String) : String :=
  let base := sanitizeName baseName
  if base ∈ names then findFree names base 1 (names.length + 1) else base

/-- Modelled from the spec: `BindParam.getUniqueNameAndAdd` (§4.1); the
`BindParam` class is not under src/. Derives a fresh name, registers the
value under it, and returns the name together with the updated table. -/
def BindParam.getUniqueNameAndAdd (bp : BindParam) (baseName : String)
    (value : NeoValue) : String × BindParam :=
  let name := getUniqueName bp.names baseName
  (name, ⟨bp.entries ++ [(name, value)]⟩)

/-- Modelled from the spec: `BindParam.acquire` (§4.1); the `BindParam`
class is not under src/. Returns the existing table unchanged, or a new
empty one. -/
def BindParam.acquire : Option BindParam → BindParam
  | some bp => bp
  | none => ⟨[]⟩

/-- A value accepted for an attribute in a where-parameter map
(`WhereValuesI` in `Where.ts`): a supported Neo4j value, the `Op.in`
set-membership wrapper, or a runtime value that passes neither guard
(the `tag` names the runtime value for diagnostics). -/
inductive WhereValuesI where
  | supported (v : NeoValue)
  | opIn (l : List NeoSingle)
  | unsupported (tag : String)
deriving DecidableEq, Repr

/-- The guard `isNeo4jSupportedTypes` of `Where.ts`. -/
def isNeo4jSupportedTypesB : WhereValuesI → Bool
  | .supported _ => true
  | _ => false

/-- The guard `isWhereIn` of `Where.ts`. -/
def isWhereInB : WhereValuesI → Bool
  | .opIn _ => true
  | _ => false

/-- A JavaScript object, modelled as an insertion-ordered association
list (JS string-keyed objects preserve insertion order). -/
abbrev JsObj (α : Type) := List (String × α)

/-- `WhereParamsI` of `Where.ts`: attribute names to values for one
identifier. -/
abbrev WhereParamsI := JsObj WhereValuesI

/-- `WhereParamsByIdentifierI` of `Where.ts`: identifiers to their
attribute maps. -/
abbrev WhereParamsByIdentifierI := JsObj WhereParamsI

/-- Assignment of one key/value pair into a JS object: an existing key
keeps its position and gets the new value, a new key is appended. -/
def assignPair {α : Type} (acc : JsObj α) (kv : String × α) : JsObj α :=
  if acc.any (fun p => p.1 = kv.1) then
    acc.map (fun p => if p.1 = kv.1 then (p.1, kv.2) else p)
  else acc ++ [kv]

/-- `Object.assign({}, ...maps)`: shallow merge of JS objects, later
maps winning per key, key order by first occurrence. -/
def objAssign {α : Type} (ms : List (JsObj α)) : JsObj α :=
  ms.foldl (fun acc m => m.foldl assignPair acc) []

/-- The comparison operator tracked per (identifier, property) tuple in
`Where.identifierPropertyData`. -/
inductive WhereOperator where
  | equals
  | opIn
deriving DecidableEq, Repr

/-- One entry of `Where.identifierPropertyData`: the identifier, the
property, the bind-param name (including the `$` prefix, as returned by
`getNameAndAddToParams`) and the operator. -/
structure IdPropData where
  identifier : String
  property : String
  bindParamName : String
  operator : WhereOperator
deriving DecidableEq, Repr

/-- The state of a `Where` instance (`Where.ts`). -/
structure Where where
  bindParam : BindParam
  rawParams : List WhereParamsByIdentifierI
  identifierPropertyData : List IdPropData
deriving DecidableEq, Repr

/-- The flattened (identifier, property, value) triples of a merged
where-parameter object, in iteration order of the nested `for-in` loops
of `Where.setBindParamNames`. -/
def flattenPairs (params : WhereParamsByIdentifierI) :
    List (String × String × WhereValuesI) :=
  params.flatMap (fun idProps =>
    idProps.2.map (fun pv => (idProps.1, pv.1, pv.2)))

/-- The body of the inner loop of `Where.setBindParamNames`: a supported
value registers a fresh bind param with operator `equals`, an `Op.in`
wrapper registers its list with operator `in`, anything else falls
through both guards and leaves the state unchanged. -/
def applyPair (w : Where) (x : String × String × WhereValuesI) : Where :=
  match x.2.2 with
  | .supported v =>
    let r := w.bindParam.getUniqueNameAndAdd x.2.1 v
    { w with
        bindParam := r.2,
        identifierPropertyData := w.identifierPropertyData ++
          [⟨x.1, x.2.1, "$" ++ r.1, .equals⟩] }
  | .opIn l =>
    let r := w.bindParam.getUniqueNameAndAdd x.2.1 (.list l)
    { w with
        bindParam := r.2,
        identifierPropertyData := w.identifierPropertyData ++
          [⟨x.1, x.2.1, "$" ++ r.1, .opIn⟩] }
  | .unsupported _ => w

/-- `Where.setBindParamNames`: merges all raw params shallowly
(`Object.assign`), then walks every (identifier, property, value) and
appends bind-param data; `identifierPropertyData` is not reset first. -/
def Where.setBindParamNames (w : Where) : Where :=
  (flattenPairs (objAssign w.rawParams)).foldl applyPair w

/-- `Where.addParams`: pushes the new raw params and recomputes the bind
param names. -/
def Where.addParams (w : Where) (whereParams : WhereParamsByIdentifierI) :
    Where :=
  Where.setBindParamNames { w with rawParams := w.rawParams ++ [whereParams] }

/-- The `Where` constructor: acquires a bind param table and adds the
initial params. -/
def Where.new (whereParams : WhereParamsByIdentifierI)
    (bindParam : Option BindParam) : Where :=
  Where.addParams ⟨BindParam.acquire bindParam, [], []⟩ whereParams

/-- `NeogmaConstraintError`: a message plus an optional rendering of the
offending value (`actual`). -/
structure NeogmaConstraintError where
  message : String
  actual : Option String
deriving DecidableEq, Repr

/-- The rendering mode of `Where.getStatement`. -/
inductive StatementMode where
  | text
  | object
deriving DecidableEq, Repr

/-- The name of a where-operator, as used in error payloads. -/
def WhereOperator.opName : WhereOperator → String
  | .equals => "equals"
  | .opIn => "in"

/-- The text-mode operator map (`textMap` inside `getStatement`). -/
def textOp : WhereOperator → String
  | .equals => "="
  | .opIn => "IN"

/-- `operatorForStatement` inside `Where.getStatement`: object mode
accepts only `equals` (rendered as `:`) and throws a constraint error
otherwise; text mode maps `equals` to `=` and `in` to `IN`. -/
def operatorForStatement (mode : StatementMode) (op : WhereOperator) :
    Except NeogmaConstraintError String :=
  match mode with
  | .object =>
    match op with
    | .equals => .ok ":"
    | .opIn =>
      .error ⟨"The only operator which is supported for object mode is \"equals\"",
        some op.opName⟩
  | .text => .ok (textOp op)

/-- One fragment pushed to `statementParts` in `Where.getStatement`. -/
def whereFragment (mode : StatementMode) (d : IdPropData) (op : String) :
    String :=
  (match mode with
    | .text => d.identifier ++ "." ++ d.property
    | .object => d.property) ++ " " ++ op ++ " " ++ d.bindParamName

/-- JavaScript `Array.prototype.join`: empty list gives the empty
string, otherwise the elements interleaved with the separator. -/
def joinSep (sep : String) : List String → String
  | [] => ""
  | [s] => s
  | s :: rest => s ++ sep ++ joinSep sep rest

/-- The fragment-collection loop of `Where.getStatement`: fragments in
`identifierPropertyData` order, aborting at the first operator the mode
rejects. -/
def statementPartsE (mode : StatementMode) :
    List IdPropData → Except NeogmaConstraintError (List String)
  | [] => .ok []
  | d :: rest =>
    match operatorForStatement mode d.operator with
    | .error e => .error e
    | .ok op =>
      match statementPartsE mode rest with
      | .error e => .error e
      | .ok parts => .ok (whereFragment mode d op :: parts)

/-- `Where.getStatement`: text mode joins fragments with ` AND `, object
mode wraps the comma-joined fragments in braces. -/
def Where.getStatement (w : Where) (mode : StatementMode) :
    Except NeogmaConstraintError String :=
  match statementPartsE mode w.identifierPropertyData with
  | .error e => .error e
  | .ok parts =>
    match mode with
    | .text => .ok (joinSep " AND " parts)
    | .object => .ok ("\x7b " ++ joinSep ", " parts ++ " \x7d")

/-- The bind-param names referenced by the accumulated tuples of a
`Where`, in order (each includes its `$` prefix). -/
def Where.tupleNames (w : Where) : List String :=
  w.identifierPropertyData.map (fun d => d.bindParamName)

/-- Drops the leading `$` of a rendered placeholder name. -/
def stripDollar (s : String) : String := ⟨s.data.drop 1⟩

/-- Modelled from the spec: a referenced external model (§6), exposing
only its label accessor `getLabel`. -/
structure ModelRef where
  label : String
deriving DecidableEq, Repr

/-- How a structured graph element obtains its label: explicit label
text, a model reference, or neither (the source then leaves the label
as the empty string). -/
inductive LabelSpec where
  | label (s : String)
  | model (m : ModelRef)
  | noLabel
deriving DecidableEq, Repr

/-- The optional inline payload of a graph element: nothing, a
where-parameter map (`node.where`), or an inline property map
(`node.properties`). -/
inductive NodeInner where
  | noInner
  | whereInner (wp : WhereParamsI)
  | propsInner (props : JsObj NeoValue)
deriving DecidableEq, Repr

/-- A structured node descriptor (`NodeForMatchI` / `NodeForCreateI`
object form). -/
structure NodeObj where
  identifier : String
  labelSpec : LabelSpec
  inner : NodeInner
deriving DecidableEq, Repr

/-- A node element: a raw string or a structured descriptor. -/
inductive NodeForMatch where
  | str (s : String)
  | obj (n : NodeObj)
deriving DecidableEq, Repr

/-- The direction of a relationship descriptor. -/
inductive RelDirection where
  | out
  | inn
  | undirected
deriving DecidableEq, Repr

/-- A structured relationship descriptor
(`RelationshipForMatchI` / `RelationshipForCreateI` object form). -/
structure RelObj where
  direction : RelDirection
  identifier : String
  name : String
  inner : NodeInner
deriving DecidableEq, Repr

/-- A relationship element: a raw string or a structured descriptor. -/
inductive RelForMatch where
  | str (s : String)
  | obj (r : RelObj)
deriving DecidableEq, Repr

/-- An element of a `related` alternating sequence: at runtime either a
node descriptor or a relationship descriptor. -/
inductive RelatedElement where
  | nodeEl (n : NodeForMatch)
  | relEl (r : RelForMatch)
deriving DecidableEq, Repr

/-- Modelled from the spec: the runtime guard `isRelationship` of the
missing `QueryBuilder.types` module (§3: odd indices of a related
sequence "must be relationships"). -/
def isRelationship : RelatedElement → Bool
  | .relEl _ => true
  | .nodeEl _ => false

/-- Modelled from the spec: `QueryRunner.getNodeStatement` (§6), which
is not under src/. Renders `(identifier:Label inner)`, omitting the
empty label and the empty inner fragment. -/
def getNodeStatement (identifier label innerText : String) : String :=
  "(" ++ identifier ++ (if label = "" then "" else ":" ++ label) ++
    (if innerText = "" then "" else " " ++ innerText) ++ ")"

/-- Modelled from the spec: `QueryRunner.getRelationshipStatement` (§6),
which is not under src/. Renders `-[identifier:TYPE inner]->` with the
arrows chosen by the direction. -/
def getRelationshipStatement (direction : RelDirection)
    (identifier name innerText : String) : String :=
  let core := "[" ++ identifier ++ (if name = "" then "" else ":" ++ name) ++
    (if innerText = "" then "" else " " ++ innerText) ++ "]"
  match direction with
  | .out => "-" ++ core ++ "->"
  | .inn => "<-" ++ core ++ "-"
  | .undirected => "-" ++ core ++ "-"

/-- Modelled from the spec: the inline-properties fragment of the
property-serialization routine (§6), which is not under src/. Registers
one bind entry per property and renders `{ k1: $v1, k2: $v2 }`. -/
def getPropertiesWithParams (bp : BindParam) (props : JsObj NeoValue) :
    String × BindParam :=
  let r := props.foldl
    (fun acc kv =>
      let g := acc.2.getUniqueNameAndAdd kv.1 kv.2
      (acc.1 ++ [kv.1 ++ ": $" ++ g.1], g.2))
    (([] : List String), bp)
  ("\x7b " ++ joinSep ", " r.1 ++ " \x7d", r.2)

/-- Renders the inner payload of a graph element against the shared
bind-param table: a where-payload builds a `Where` keyed by the
element's identifier and renders it in object mode (which can throw), a
property payload delegates to the property serializer. -/
def renderInner (bp : BindParam) (identifier : String) :
    NodeInner → Except NeogmaConstraintError (String × BindParam)
  | .noInner => .ok ("", bp)
  | .whereInner wp =>
    let w := Where.new [(identifier, wp)] (some bp)
    match w.getStatement .object with
    | .error e => .error e
    | .ok s => .ok (s, w.bindParam)
  | .propsInner props => .ok (getPropertiesWithParams bp props)

/-- `QueryBuilder.getNodeString`: a raw string is emitted verbatim; a
structured node resolves its label (explicit text first, else the
model's label, else empty) and renders through `getNodeStatement`. -/
def getNodeString (bp : BindParam) :
    NodeForMatch → Except NeogmaConstraintError (String × BindParam)
  | .str s => .ok (s, bp)
  | .obj n =>
    let label := match n.labelSpec with
      | .label s => s
      | .model m => m.label
      | .noLabel => ""
    match renderInner bp n.identifier n.inner with
    | .error e => .error e
    | .ok r => .ok (getNodeStatement n.identifier label r.1, r.2)

/-- `QueryBuilder.getRelationshipString`: a raw string is emitted
verbatim; a structured relationship renders through
`getRelationshipStatement`. -/
def getRelationshipString (bp : BindParam) :
    RelForMatch → Except NeogmaConstraintError (String × BindParam)
  | .str s => .ok (s, bp)
  | .obj r =>
    match renderInner bp r.identifier r.inner with
    | .error e => .error e
    | .ok res => .ok (getRelationshipStatement r.direction r.identifier r.name res.1, res.2)

/-- An even-indexed element of a related sequence is parsed as a node;
a relationship object reaching this path is rendered through the node
path with an empty label, mirroring the source's unguarded
`getNodeString(element)` call. -/
def relatedNodeString (bp : BindParam) :
    RelatedElement → Except NeogmaConstraintError (String × BindParam)
  | .nodeEl n => getNodeString bp n
  | .relEl (.str s) => .ok (s, bp)
  | .relEl (.obj r) => getNodeString bp (.obj ⟨r.identifier, .noLabel, r.inner⟩)

/-- An odd-indexed element that passed the relationship guard is parsed
as a relationship. -/
def relElString (bp : BindParam) :
    RelatedElement → Except NeogmaConstraintError (String × BindParam)
  | .relEl r => getRelationshipString bp r
  | .nodeEl n => getNodeString bp n

/-- The error thrown when an odd-indexed element of a related sequence
fails the relationship guard. -/
def relatedShapeError : NeogmaConstraintError :=
  ⟨"even argument of related is not a relationship", none⟩

/-- The shared loop over a related alternating sequence (`index`
carries the current 0-based position): odd positions must pass the
relationship guard or the constraint error is thrown; fragments are
collected in order. -/
def goRelated (bp : BindParam) (idx : Nat) :
    List RelatedElement →
    Except NeogmaConstraintError (List String × BindParam)
  | [] => .ok ([], bp)
  | el :: rest =>
    let step :=
      if idx % 2 = 1 then
        if isRelationship el then relElString bp el
        else .error relatedShapeError
      else relatedNodeString bp el
    match step with
    | .error e => .error e
    | .ok r =>
      match goRelated r.2 (idx + 1) rest with
      | .error e => .error e
      | .ok rs => .ok (r.1 :: rs.1, rs.2)

/-- Threads the bind-param table through a list of node renderings
(`match.multiple` / `create.multiple`). -/
def mapNodes (bp : BindParam) :
    List NodeForMatch →
    Except NeogmaConstraintError (List String × BindParam)
  | [] => .ok ([], bp)
  | n :: rest =>
    match getNodeString bp n with
    | .error e => .error e
    | .ok r =>
      match mapNodes r.2 rest with
      | .error e => .error e
      | .ok rs => .ok (r.1 :: rs.1, rs.2)

/-- The `OPTIONAL` slot of a match clause: `'OPTIONAL'` or `''`. -/
def optSlot (b : Bool) : String := if b then "OPTIONAL" else ""

/-- The `match` parameter (`MatchI['match']`): a raw string, or a
structured pattern (`multiple`, `related`, `literal`, or a bare node)
carrying the `optional` flag. -/
inductive MatchI where
  | str (s : String)
  | multiple (nodes : List NodeForMatch) (optional : Bool)
  | related (els : List RelatedElement) (optional : Bool)
  | literal (node : NodeForMatch) (optional : Bool)
  | nodeForm (n : NodeObj) (optional : Bool)
deriving DecidableEq, Repr

/-- `QueryBuilder.getMatchString`. -/
def getMatchString (bp : BindParam) :
    MatchI → Except NeogmaConstraintError (String × BindParam)
  | .str s => .ok ("MATCH " ++ s, bp)
  | .multiple nodes opt =>
    match mapNodes bp nodes with
    | .error e => .error e
    | .ok r => .ok (joinSep " " [optSlot opt, "MATCH", joinSep ", " r.1], r.2)
  | .related els opt =>
    match goRelated bp 0 els with
    | .error e => .error e
    | .ok r => .ok (joinSep " " [optSlot opt, "MATCH", joinSep "" r.1], r.2)
  | .literal node opt =>
    match getNodeString bp node with
    | .error e => .error e
    | .ok r => .ok (joinSep " " [optSlot opt, "MATCH " ++ r.1], r.2)
  | .nodeForm n opt =>
    match getNodeString bp (.obj n) with
    | .error e => .error e
    | .ok r => .ok (joinSep " " [optSlot opt, "MATCH " ++ r.1], r.2)

/-- Whether a create/merge is rendered with `CREATE` or `MERGE`. -/
inductive CMMode where
  | create
  | merge
deriving DecidableEq, Repr

/-- The clause keyword for a create/merge mode. -/
def keywordFor : CMMode → String
  | .create => "CREATE"
  | .merge => "MERGE"

/-- The `create`/`merge` parameter (`CreateI['create']`): a raw string,
a `multiple` list, a `related` sequence, a bare node with a label or a
model, or a runtime value matching none of the recognized shapes (the
`tag` names it for diagnostics). -/
inductive CreateI where
  | str (s : String)
  | multiple (nodes : List NodeForMatch)
  | related (els : List RelatedElement)
  | nodeLabel (identifier : String) (label : String)
  | nodeModel (identifier : String) (m : ModelRef)
  | unrecognized (tag : String)
deriving DecidableEq, Repr

/-- `QueryBuilder.getCreateOrMergeString`: same pattern handling as
match (without the optional slot); an unrecognized shape throws a
constraint error carrying the offending value. -/
def getCreateOrMergeString (bp : BindParam) (create : CreateI)
    (mode : CMMode) : Except NeogmaConstraintError (String × BindParam) :=
  match create with
  | .str s => .ok (keywordFor mode ++ " " ++ s, bp)
  | .multiple nodes =>
    match mapNodes bp nodes with
    | .error e => .error e
    | .ok r => .ok (joinSep " " [keywordFor mode, joinSep ", " r.1], r.2)
  | .related els =>
    match goRelated bp 0 els with
    | .error e => .error e
    | .ok r => .ok (joinSep " " [keywordFor mode, joinSep "" r.1], r.2)
  | .nodeLabel identifier label =>
    match getNodeString bp (.obj ⟨identifier, .label label, .noInner⟩) with
    | .error e => .error e
    | .ok r => .ok (joinSep " " [keywordFor mode, r.1], r.2)
  | .nodeModel identifier m =>
    match getNodeString bp (.obj ⟨identifier, .model m, .noInner⟩) with
    | .error e => .error e
    | .ok r => .ok (joinSep " " [keywordFor mode, r.1], r.2)
  | .unrecognized tag =>
    .error ⟨"Invanid create parameter", some tag⟩

/-- One-or-many input shape (`string | string[]` in the source). -/
inductive OneOrMany (α : Type) where
  | one (a : α)
  | many (l : List α)
deriving DecidableEq, Repr

/-- The `Array.isArray` normalization applied by the source to
one-or-many inputs. -/
def OneOrMany.toList {α : Type} : OneOrMany α → List α
  | .one a => [a]
  | .many l => l

/-- The `set` parameter (`SetI['set']`): raw text or an
identifier-with-properties object. -/
inductive SetI where
  | str (s : String)
  | obj (identifier : String) (props : JsObj NeoValue)
deriving DecidableEq, Repr

/-- Modelled from the spec: the `SET`-clause fragment of
`QueryRunner.getSetParts` (§6), which is not under src/. Registers one
bind entry per property and renders
`SET identifier.k1 = $v1, identifier.k2 = $v2`. -/
def getSetParts (bp : BindParam) (identifier : String)
    (props : JsObj NeoValue) : String × BindParam :=
  let r := props.foldl
    (fun acc kv =>
      let g := acc.2.getUniqueNameAndAdd kv.1 kv.2
      (acc.1 ++ [identifier ++ "." ++ kv.1 ++ " = $" ++ g.1], g.2))
    (([] : List String), bp)
  ("SET " ++ joinSep ", " r.1, r.2)

/-- `QueryBuilder.getSetString`. -/
def getSetString (bp : BindParam) : SetI → String × BindParam
  | .str s => ("SET " ++ s, bp)
  | .obj identifier props => getSetParts bp identifier props

/-- The `delete` parameter (`DeleteI['delete']`): raw text, an
identifiers form with a detach flag, a literal form with a detach flag,
or a runtime value matching none of the recognized shapes. -/
inductive DeleteI where
  | str (s : String)
  | identifiers (ids : OneOrMany String) (detach : Bool)
  | literal (lit : String) (detach : Bool)
  | unrecognized (tag : String)
deriving DecidableEq, Repr

/-- `QueryBuilder.getDeleteString`: the unrecognized shape falls
through every guard and the function returns `undefined` (here:
`none`). -/
def getDeleteString : DeleteI → Option String
  | .str s => some ("DELETE " ++ s)
  | .identifiers ids detach =>
    some ((if detach then "DETACH " else "") ++ "DELETE " ++
      joinSep ", " ids.toList)
  | .literal lit detach =>
    some ((if detach then "DETACH " else "") ++ "DELETE " ++ lit)
  | .unrecognized _ => none

/-- The `remove` parameter (`RemoveI['remove']`): raw text, a
properties form, a labels form, or a runtime value matching none of the
recognized shapes. -/
inductive RemoveI where
  | str (s : String)
  | properties (identifier : String) (props : OneOrMany String)
  | labels (identifier : String) (labels : OneOrMany String)
  | unrecognized (tag : String)
deriving DecidableEq, Repr

/-- `QueryBuilder.getRemoveString`: the unrecognized shape falls
through every guard and the function returns `undefined` (here:
`none`). -/
def getRemoveString : RemoveI → Option String
  | .str s => some ("REMOVE " ++ s)
  | .properties identifier props =>
    some ("REMOVE " ++
      joinSep ", " (props.toList.map (fun p => identifier ++ "." ++ p)))
  | .labels identifier labels =>
    some ("REMOVE " ++ identifier ++ ":" ++ joinSep ":" labels.toList)
  | .unrecognized _ => none

/-- One element of the object form of a `return` parameter. -/
structure RetObj where
  identifier : String
  property : Option String
deriving DecidableEq, Repr

/-- The `return` parameter (`ReturnI['return']`). -/
inductive ReturnI where
  | str (s : String)
  | objs (l : List RetObj)
  | strs (l : List String)
deriving DecidableEq, Repr

/-- `QueryBuilder.getReturnString`. -/
def getReturnString : ReturnI → String
  | .str s => "RETURN " ++ s
  | .objs l =>
    "RETURN " ++ joinSep ", " (l.map (fun v =>
      v.identifier ++ (match v.property with
        | some p => "." ++ p
        | none => "")))
  | .strs l => "RETURN " ++ joinSep ", " l

/-- The `limit` parameter (`LimitI['limit']`): raw text or an
integer. -/
inductive LimitI where
  | str (s : String)
  | int (n : Int)
deriving DecidableEq, Repr

/-- `QueryBuilder.getLimitString`: raw text is emitted verbatim after
`LIMIT`; an integer is registered in the bind-param table under base
name `limit` (wrapped by the driver's `int`) and referenced as a
placeholder. -/
def getLimitString (bp : BindParam) : LimitI → String × BindParam
  | .str s => ("LIMIT " ++ s, bp)
  | .int n =>
    let r := bp.getUniqueNameAndAdd "limit" (.single (.neoInt n))
    ("LIMIT $" ++ r.1, r.2)

/-- The `with` parameter (`WithI['with']`). -/
abbrev WithI := OneOrMany String

/-- `QueryBuilder.getWithString`. -/
def getWithString (wth : WithI) : String :=
  "WITH " ++ joinSep ", " wth.toList

/-- A clause descriptor (`ParameterI`): one tagged clause of a query. -/
inductive ParameterI where
  | raw (s : String)
  | matchP (m : MatchI)
  | create (c : CreateI)
  | merge (c : CreateI)
  | set (s : SetI)
  | delete (d : DeleteI)
  | remove (r : RemoveI)
  | ret (r : ReturnI)
  | limit (l : LimitI)
  | withP (w : WithI)
deriving DecidableEq, Repr

/-- Whether a character is matched by the JavaScript `\s` class (the
characters the compiled fragments can contain). -/
def isWsChar (c : Char) : Bool :=
  c = ' ' || c = '\n' || c = '\t' || c = '\r'

/-- The scanner behind `replace(/\s+/g, ' ')`: the flag records whether
the previous character was whitespace, so each maximal whitespace run
emits exactly one space. -/
def collapseGo : Bool → List Char → List Char
  | _, [] => []
  | inWs, c :: cs =>
    if isWsChar c then
      if inWs then collapseGo true cs else ' ' :: collapseGo true cs
    else c :: collapseGo false cs

/-- `statement.replace(/\s+/g, ' ')`: collapses every whitespace run to
a single space, without trimming. -/
def collapseWs (s : String) : String := ⟨collapseGo false s.data⟩

/-- The dispatch loop of `QueryBuilder.setStatementByParameters`: each
descriptor is rendered by its dedicated renderer, in order, threading
the shared bind-param table; a `delete`/`remove` fallthrough
(`undefined`) contributes the empty string, as `Array.join` renders
`undefined` as `''`. -/
def renderClauses (bp : BindParam) :
    List ParameterI →
    Except NeogmaConstraintError (List String × BindParam)
  | [] => .ok ([], bp)
  | p :: rest =>
    let step : Except NeogmaConstraintError (String × BindParam) :=
      match p with
      | .raw s => .ok (s, bp)
      | .matchP m => getMatchString bp m
      | .create c => getCreateOrMergeString bp c .create
      | .merge c => getCreateOrMergeString bp c .merge
      | .set s => .ok (getSetString bp s)
      | .delete d => .ok ((getDeleteString d).getD "", bp)
      | .remove r => .ok ((getRemoveString r).getD "", bp)
      | .ret r => .ok (getReturnString r, bp)
      | .limit l => .ok (getLimitString bp l)
      | .withP w => .ok (getWithString w, bp)
    match step with
    | .error e => .error e
    | .ok r =>
      match renderClauses r.2 rest with
      | .error e => .error e
      | .ok rs => .ok (r.1 :: rs.1, rs.2)

/-- The state of a compiled `QueryBuilder`. -/
structure QueryBuilder where
  parameters : List ParameterI
  statement : String
  bindParam : BindParam
deriving DecidableEq, Repr

/-- The `QueryBuilder` constructor with an explicit bind-param table:
renders every clause in order, joins the fragments with a newline and
collapses all whitespace runs to single spaces. -/
def QueryBuilder.build (params : List ParameterI) (bp0 : BindParam) :
    Except NeogmaConstraintError QueryBuilder :=
  match renderClauses bp0 params with
  | .error e => .error e
  | .ok r => .ok ⟨params, collapseWs (joinSep "\n" r.1), r.2⟩

/-- The invariant maintained by the predicate compiler over one shared
bind-param table: table names are pairwise distinct, the accumulated
placeholder names are pairwise distinct, and every accumulated
placeholder is `$` followed by a registered table name. -/
def WhereInv (w : Where) : Prop :=
  w.bindParam.names.Nodup ∧ w.tupleNames.Nodup ∧
    ∀ d ∈ w.identifierPropertyData,
      ∃ n, d.bindParamName = "$" ++ n ∧ n ∈ w.bindParam.names

/-- Whether a match parameter is a structured pattern (not a raw
string) whose optional flag is false. -/
def MatchI.isStructuredNonOptional : MatchI → Bool
  | .str _ => false
  | .multiple _ opt => !opt
  | .related _ opt => !opt
  | .literal _ opt => !opt
  | .nodeForm _ opt => !opt

/-- Whether a fallible computation produced a value. -/
def exceptIsOk {ε α : Type} : Except ε α → Bool
  | .ok _ => true
  | .error _ => false

/-- A predicate built from initial params and one further `addParams`
call over one shared bind-param table, as in the composition scenario
of the uniqueness guarantee. -/
def whereChain (ps1 ps2 : WhereParamsByIdentifierI) (bp0 : BindParam) :
    Where :=
  (Where.new ps1 (some bp0)).addParams ps2

theorem data_append (s t : String) : (s ++ t).data = s.data ++ t.data :=
  String.data_append s t

theorem digitVal_digitChar {d : Nat} (h : d < 10) :
    digitVal (digitChar d) = d := by
  interval_cases d <;> rfl

theorem decValLE_decChars : ∀ fuel n, n < fuel →
    decValLE (decChars fuel n) = n := by
  intro fuel
  induction fuel with
  | zero => intro n h; omega
  | succ fuel ih =>
    intro n h
    by_cases h10 : n < 10
    · simp only [decChars, if_pos h10, decValLE, digitVal_digitChar h10]
      omega
    · have hdiv : n / 10 < fuel := by
        have : n / 10 < n := Nat.div_lt_self (by omega) (by omega)
        omega
      simp only [decChars, if_neg h10, decValLE,
        digitVal_digitChar (Nat.mod_lt n (by omega)), ih _ hdiv]
      omega

theorem decimal_inj {m n : Nat} (h : decimal m = decimal n) : m = n := by
  have hd : (decChars (m + 1) m).reverse = (decChars (n + 1) n).reverse :=
    congrArg String.data h
  have hl : decChars (m + 1) m = decChars (n + 1) n := by
    have := congrArg List.reverse hd
    simpa using this
  have := congrArg decValLE hl
  rwa [decValLE_decChars _ _ (Nat.lt_succ_self m),
    decValLE_decChars _ _ (Nat.lt_succ_self n)] at this

theorem suffix_inj {base : String} {m n : Nat}
    (h : base ++ "__" ++ decimal m = base ++ "__" ++ decimal n) : m = n := by
  have hd := congrArg String.data h
  rw [data_append, data_append, data_append, data_append] at hd
  have : (decimal m).data = (decimal n).data := List.append_cancel_left hd
  exact decimal_inj (by
    cases hm : decimal m with
    | mk dm =>
      cases hn : decimal n with
      | mk dn =>
        rw [hm, hn] at this
        simpa [hm, hn] using congrArg String.mk this)

theorem exists_fresh (names : List String) (base : String) :
    ∃ k, k < names.length + 1 ∧
      (base ++ "__" ++ decimal (k + 1)) ∉ names := by
  by_contra hcon
  push_neg at hcon
  set f : Nat → String := fun k => base ++ "__" ++ decimal (k + 1) with hf
  have hinj : Function.Injective f := by
    intro a b hab
    have := suffix_inj hab
    omega
  have hnodup : ((List.range (names.length + 1)).map f).Nodup :=
    (List.nodup_range _).map hinj
  have hsub : ∀ x ∈ (List.range (names.length + 1)).map f, x ∈ names := by
    intro x hx
    obtain ⟨k, hk, rfl⟩ := List.mem_map.mp hx
    exact hcon k (List.mem_range.mp hk)
  have hcard1 : ((List.range (names.length + 1)).map f).toFinset.card =
      names.length + 1 := by
    rw [List.toFinset_card_of_nodup hnodup]
    simp
  have hle : ((List.range (names.length + 1)).map f).toFinset.card ≤
      names.toFinset.card := by
    apply Finset.card_le_card
    intro x hx
    rw [List.mem_toFinset] at hx ⊢
    exact hsub x hx
  have := List.toFinset_card_le names
  omega

theorem findFree_not_mem (names : List String) (base : String) :
    ∀ fuel k, (∃ j, k ≤ j ∧ j < k + fuel ∧
      (base ++ "__" ++ decimal j) ∉ names) →
      findFree names base k fuel ∉ names := by
  intro fuel
  induction fuel with
  | zero =>
    intro k ⟨j, h1, h2, _⟩
    omega
  | succ fuel ih =>
    intro k ⟨j, h1, h2, h3⟩
    by_cases hmem : (base ++ "__" ++ decimal k) ∈ names
    · simp only [findFree, if_pos hmem]
      apply ih
      refine ⟨j, ?_, by omega, h3⟩
      rcases Nat.eq_or_lt_of_le h1 with rfl | hlt
      · exact absurd hmem h3
      · omega
    · simpa only [findFree, if_neg hmem] using hmem

theorem getUniqueName_not_mem (names : List String) (baseName : String) :
    getUniqueName names baseName ∉ names := by
  unfold getUniqueName
  by_cases hmem : sanitizeName baseName ∈ names
  · simp only [if_pos hmem]
    apply findFree_not_mem
    obtain ⟨k, hk, hfree⟩ := exists_fresh names (sanitizeName baseName)
    exact ⟨k + 1, by omega, by omega, hfree⟩
  · simpa only [if_neg hmem] using hmem

theorem getUniqueNameAndAdd_spec (bp : BindParam) (baseName : String)
    (value : NeoValue) :
    (bp.getUniqueNameAndAdd baseName value).1 ∉ bp.names ∧
    (bp.getUniqueNameAndAdd baseName value).2.names =
      bp.names ++ [(bp.getUniqueNameAndAdd baseName value).1] := by
  constructor
  · exact getUniqueName_not_mem bp.names baseName
  · simp [BindParam.getUniqueNameAndAdd, BindParam.names]

theorem string_ext {a b : String} (h : a.data = b.data) : a = b := by
  cases a
  cases b
  exact congrArg String.mk h

theorem dollar_inj {a b : String} (h : "$" ++ a = "$" ++ b) : a = b := by
  have hd := congrArg String.data h
  rw [data_append, data_append] at hd
  exact string_ext (List.append_cancel_left hd)

theorem applyPair_inv {w : Where} (x : String × String × WhereValuesI)
    (h : WhereInv w) :
    WhereInv (applyPair w x) ∧
    ∀ n ∈ w.bindParam.names, n ∈ (applyPair w x).bindParam.names := by
  obtain ⟨hbp, htup, hmem⟩ := h
  obtain ⟨id, prop, v⟩ := x
  cases v with
  | unsupported tag => exact ⟨⟨hbp, htup, hmem⟩, fun n hn => hn⟩
  | supported nv =>
    obtain ⟨hfresh, hnames⟩ :=
      getUniqueNameAndAdd_spec w.bindParam prop nv
    constructor
    · refine ⟨?_, ?_, ?_⟩
      · simp only [applyPair, hnames]
        simp [List.nodup_append, hbp, hfresh]
      · simp only [applyPair, Where.tupleNames, List.map_append]
        rw [List.nodup_append]
        refine ⟨htup, List.nodup_singleton _, ?_⟩
        intro s hs hs'
        simp only [List.map_cons, List.map_nil, List.mem_singleton] at hs'
        obtain ⟨d, hd, hds⟩ := List.mem_map.mp hs
        obtain ⟨n, hn1, hn2⟩ := hmem d hd
        subst hs'
        have heq := dollar_inj (hds.symm.trans hn1)
        rw [heq] at hfresh
        exact hfresh hn2
      · intro d hd
        simp only [applyPair, List.mem_append, List.mem_singleton] at hd
        rcases hd with hd | hd
        · obtain ⟨n, hn1, hn2⟩ := hmem d hd
          exact ⟨n, hn1, by simp [applyPair, hnames, hn2]⟩
        · subst hd
          exact ⟨_, rfl, by simp [applyPair, hnames]⟩
    · intro n hn
      simp [applyPair, hnames, hn]
  | opIn l =>
    obtain ⟨hfresh, hnames⟩ :=
      getUniqueNameAndAdd_spec w.bindParam prop (.list l)
    constructor
    · refine ⟨?_, ?_, ?_⟩
      · simp only [applyPair, hnames]
        simp [List.nodup_append, hbp, hfresh]
      · simp only [applyPair, Where.tupleNames, List.map_append]
        rw [List.nodup_append]
        refine ⟨htup, List.nodup_singleton _, ?_⟩
        intro s hs hs'
        simp only [List.map_cons, List.map_nil, List.mem_singleton] at hs'
        obtain ⟨d, hd, hds⟩ := List.mem_map.mp hs
        obtain ⟨n, hn1, hn2⟩ := hmem d hd
        subst hs'
        have heq := dollar_inj (hds.symm.trans hn1)
        rw [heq] at hfresh
        exact hfresh hn2
      · intro d hd
        simp only [applyPair, List.mem_append, List.mem_singleton] at hd
        rcases hd with hd | hd
        · obtain ⟨n, hn1, hn2⟩ := hmem d hd
          exact ⟨n, hn1, by simp [applyPair, hnames, hn2]⟩
        · subst hd
          exact ⟨_, rfl, by simp [applyPair, hnames]⟩
    · intro n hn
      simp [applyPair, hnames, hn]

theorem foldl_applyPair_inv :
    ∀ (l : List (String × String × WhereValuesI)) (w : Where),
      WhereInv w →
      WhereInv (l.foldl applyPair w) ∧
      ∀ n ∈ w.bindParam.names, n ∈ (l.foldl applyPair w).bindParam.names := by
  intro l
  induction l with
  | nil => exact fun w h => ⟨h, fun n hn => hn⟩
  | cons x rest ih =>
    intro w h
    obtain ⟨h1, h2⟩ := applyPair_inv x h
    obtain ⟨h3, h4⟩ := ih (applyPair w x) h1
    exact ⟨h3, fun n hn => h4 n (h2 n hn)⟩

theorem setBindParamNames_inv {w : Where} (h : WhereInv w) :
    WhereInv w.setBindParamNames ∧
    ∀ n ∈ w.bindParam.names, n ∈ w.setBindParamNames.bindParam.names :=
  foldl_applyPair_inv _ w h

theorem addParams_inv {w : Where} (ps : WhereParamsByIdentifierI)
    (h : WhereInv w) :
    WhereInv (w.addParams ps) ∧
    ∀ n ∈ w.bindParam.names, n ∈ (w.addParams ps).bindParam.names := by
  have h' : WhereInv { w with rawParams := w.rawParams ++ [ps] } := h
  exact setBindParamNames_inv h'

theorem whereNew_inv (ps : WhereParamsByIdentifierI) (bp0 : BindParam)
    (h : bp0.names.Nodup) :
    WhereInv (Where.new ps (some bp0)) ∧
    ∀ n ∈ bp0.names, n ∈ (Where.new ps (some bp0)).bindParam.names := by
  have hinit : WhereInv ⟨bp0, [], []⟩ := by
    refine ⟨h, ?_, ?_⟩
    · simp [Where.tupleNames]
    · intro d hd
      simp at hd
  exact addParams_inv ps hinit

theorem statementPartsE_text (l : List IdPropData) :
    statementPartsE .text l =
      .ok (l.map (fun d => whereFragment .text d (textOp d.operator))) := by
  induction l with
  | nil => rfl
  | cons d rest ih =>
    simp only [statementPartsE, operatorForStatement, ih, List.map_cons]

theorem getStatement_text (w : Where) :
    w.getStatement .text =
      .ok (joinSep " AND " (w.identifierPropertyData.map
        (fun d => whereFragment .text d (textOp d.operator)))) := by
  simp only [Where.getStatement, statementPartsE_text]

theorem statementPartsE_object_ok (l : List IdPropData)
    (h : ∀ d ∈ l, d.operator = .equals) :
    statementPartsE .object l =
      .ok (l.map (fun d => whereFragment .object d ":")) := by
  induction l with
  | nil => rfl
  | cons d rest ih =>
    have hd := h d (List.mem_cons_self d rest)
    have hrest := ih (fun d' hd' => h d' (List.mem_cons_of_mem _ hd'))
    simp only [statementPartsE, operatorForStatement, hd, hrest, List.map_cons]

theorem statementPartsE_object_error (l : List IdPropData) (d : IdPropData)
    (hd : d ∈ l) (hop : d.operator = .opIn) :
    ∃ e, statementPartsE .object l = .error e := by
  induction l with
  | nil => exact absurd hd (List.not_mem_nil d)
  | cons a rest ih =>
    cases ha : a.operator with
    | opIn =>
      refine ⟨⟨"The only operator which is supported for object mode is \"equals\"",
        some a.operator.opName⟩, ?_⟩
      simp only [statementPartsE, operatorForStatement, ha]
    | equals =>
      rcases List.mem_cons.mp hd with rfl | hmem
      · rw [hop] at ha; exact absurd ha (by simp)
      · obtain ⟨e, he⟩ := ih hmem
        refine ⟨e, ?_⟩
        simp only [statementPartsE, operatorForStatement, ha, he]

theorem statementPartsE_object_isOk (l : List IdPropData) :
    exceptIsOk (statementPartsE .object l) = true ↔
      ∀ d ∈ l, d.operator = .equals := by
  constructor
  · intro hok
    by_contra hcon
    push_neg at hcon
    obtain ⟨d, hd, hne⟩ := hcon
    have hop : d.operator = .opIn := by
      cases h : d.operator with
      | equals => exact absurd h hne
      | opIn => rfl
    obtain ⟨e, he⟩ := statementPartsE_object_error l d hd hop
    rw [he] at hok
    exact absurd hok (by simp [exceptIsOk])
  · intro hall
    rw [statementPartsE_object_ok l hall]
    rfl

theorem goRelated_nil (bp : BindParam) (k : Nat) :
    goRelated bp k [] = .ok ([], bp) := rfl

theorem goRelated_ok_spec :
    ∀ (l : List RelatedElement) (bp : BindParam) (k : Nat)
      (parts : List String) (bp' : BindParam),
      goRelated bp k l = .ok (parts, bp') →
      parts.length = l.length ∧
      ∀ i (h : i < l.length), (k + i) % 2 = 1 →
        isRelationship (l.get ⟨i, h⟩) = true := by
  intro l
  induction l with
  | nil =>
    intro bp k parts bp' h
    simp only [goRelated_nil, Except.ok.injEq, Prod.mk.injEq] at h
    obtain ⟨h1, _⟩ := h
    subst h1
    exact ⟨rfl, fun i hi => absurd hi (by simp)⟩
  | cons el rest ih =>
    intro bp k parts bp' h
    by_cases hk : k % 2 = 1
    · by_cases hrel : isRelationship el = true
      · cases hstep : relElString bp el with
        | error e =>
          simp only [goRelated, if_pos hk, if_pos hrel, hstep] at h
          exact Except.noConfusion h
        | ok r =>
          simp only [goRelated, if_pos hk, if_pos hrel, hstep] at h
          cases hrec : goRelated r.2 (k + 1) rest with
          | error e =>
            simp only [hrec] at h
            exact Except.noConfusion h
          | ok rs =>
            simp only [hrec, Except.ok.injEq, Prod.mk.injEq] at h
            obtain ⟨hparts, _⟩ := h
            obtain ⟨ihlen, ihall⟩ := ih r.2 (k + 1) rs.1 rs.2 (by rw [hrec])
            subst hparts
            refine ⟨by simp [ihlen], ?_⟩
            intro i hi hodd
            cases i with
            | zero => exact hrel
            | succ j =>
              have : (k + 1 + j) % 2 = 1 := by omega
              exact ihall j (by simpa using hi) this
      · simp only [goRelated, if_pos hk, if_neg hrel] at h
        exact Except.noConfusion h
    · cases hstep : relatedNodeString bp el with
      | error e =>
        simp only [goRelated, if_neg hk, hstep] at h
        exact Except.noConfusion h
      | ok r =>
        simp only [goRelated, if_neg hk, hstep] at h
        cases hrec : goRelated r.2 (k + 1) rest with
        | error e =>
          simp only [hrec] at h
          exact Except.noConfusion h
        | ok rs =>
          simp only [hrec, Except.ok.injEq, Prod.mk.injEq] at h
          obtain ⟨hparts, _⟩ := h
          obtain ⟨ihlen, ihall⟩ := ih r.2 (k + 1) rs.1 rs.2 (by rw [hrec])
          subst hparts
          refine ⟨by simp [ihlen], ?_⟩
          intro i hi hodd
          cases i with
          | zero => omega
          | succ j =>
            have : (k + 1 + j) % 2 = 1 := by omega
            exact ihall j (by simpa using hi) this

theorem goRelated_error_of_bad :
    ∀ (l : List RelatedElement) (bp : BindParam) (k : Nat),
      (∃ i, ∃ h : i < l.length, (k + i) % 2 = 1 ∧
        isRelationship (l.get ⟨i, h⟩) = false) →
      ∃ e, goRelated bp k l = .error e := by
  intro l
  induction l with
  | nil =>
    intro bp k ⟨i, hi, _⟩
    exact absurd hi (by simp)
  | cons el rest ih =>
    intro bp k ⟨i, hi, hodd, hbad⟩
    cases i with
    | zero =>
      have hk : k % 2 = 1 := by omega
      have hbad0 : isRelationship el = false := by simpa using hbad
      have hrel : ¬ isRelationship el = true := by simp [hbad0]
      exact ⟨relatedShapeError,
        by simp only [goRelated, if_pos hk, if_neg hrel]⟩
    | succ j =>
      have hjrest : ∃ i, ∃ h : i < rest.length, (k + 1 + i) % 2 = 1 ∧
          isRelationship (rest.get ⟨i, h⟩) = false := by
        refine ⟨j, by simpa using hi, by omega, ?_⟩
        simpa [List.get] using hbad
      by_cases hk : k % 2 = 1
      · by_cases hrel : isRelationship el = true
        · cases hstep : relElString bp el with
          | error e =>
            exact ⟨e, by simp only [goRelated, if_pos hk, if_pos hrel, hstep]⟩
          | ok r =>
            obtain ⟨e, he⟩ := ih r.2 (k + 1) hjrest
            exact ⟨e, by simp only [goRelated, if_pos hk, if_pos hrel, hstep, he]⟩
        · exact ⟨relatedShapeError,
            by simp only [goRelated, if_pos hk, if_neg hrel]⟩
      · cases hstep : relatedNodeString bp el with
        | error e =>
          exact ⟨e, by simp only [goRelated, if_neg hk, hstep]⟩
        | ok r =>
          obtain ⟨e, he⟩ := ih r.2 (k + 1) hjrest
          exact ⟨e, by simp only [goRelated, if_neg hk, hstep, he]⟩

theorem goRelated_append :
    ∀ (l1 l2 : List RelatedElement) (bp : BindParam) (k : Nat),
      goRelated bp k (l1 ++ l2) =
        match goRelated bp k l1 with
        | .error e => .error e
        | .ok r =>
          match goRelated r.2 (k + l1.length) l2 with
          | .error e => .error e
          | .ok rs => .ok (r.1 ++ rs.1, rs.2) := by
  intro l1
  induction l1 with
  | nil =>
    intro l2 bp k
    simp only [List.nil_append, goRelated_nil, List.length_nil, Nat.add_zero]
    cases goRelated bp k l2 with
    | error e => rfl
    | ok rs => rfl
  | cons el rest ih =>
    intro l2 bp k
    cases hstep : (if k % 2 = 1 then
        if isRelationship el then relElString bp el
        else Except.error relatedShapeError
      else relatedNodeString bp el) with
    | error e =>
      simp only [List.cons_append, goRelated, hstep]
    | ok r =>
      simp only [List.cons_append, goRelated, hstep, List.length_cons,
        List.append_eq]
      rw [ih l2 r.2 (k + 1)]
      have harith : k + 1 + rest.length = k + (rest.length + 1) := by omega
      rw [harith]
      cases goRelated r.2 (k + 1) rest with
      | error e => rfl
      | ok rs =>
        dsimp only
        cases goRelated rs.2 (k + (rest.length + 1)) l2 with
        | error e => rfl
        | ok rs2 => rfl

theorem collapseGo_ws (l : List Char) :
    ∀ (b : Bool) (c : Char), c ∈ collapseGo b l → isWsChar c = true →
      c = ' ' := by
  induction l with
  | nil =>
    intro b c hc _
    simp [collapseGo] at hc
  | cons a rest ih =>
    intro b c hc hw
    by_cases ha : isWsChar a = true
    · cases b with
      | true =>
        simp only [collapseGo, if_pos ha, if_true] at hc
        exact ih true c hc hw
      | false =>
        simp only [collapseGo, if_pos ha, if_false, Bool.false_eq_true,
          List.mem_cons] at hc
        rcases hc with rfl | hmem
        · rfl
        · exact ih true c hmem hw
    · simp only [collapseGo, if_neg ha, List.mem_cons] at hc
      rcases hc with rfl | hmem
      · exact absurd hw ha
      · exact ih false c hmem hw

theorem collapseWs_singleLine (s : String) :
    ∀ c ∈ (collapseWs s).data, isWsChar c = true → c = ' ' :=
  fun c hc hw => collapseGo_ws s.data false c hc hw

theorem collapseWs_head_space {s : String} {t : List Char}
    (h : s.data = ' ' :: t) : (collapseWs s).data.head? = some ' ' := by
  simp only [collapseWs, h, collapseGo, isWsChar]
  simp

theorem joinSep_cons_head {sep s : String} {rest : List String}
    {t : List Char} (h : s.data = ' ' :: t) :
    ∃ u, (joinSep sep (s :: rest)).data = ' ' :: u := by
  cases rest with
  | nil => exact ⟨t, h⟩
  | cons b bs =>
    refine ⟨t ++ (sep.data ++ (joinSep sep (b :: bs)).data), ?_⟩
    show ((s ++ sep) ++ joinSep sep (b :: bs)).data = _
    rw [data_append, data_append, h]
    simp

theorem stripDollar_dollar (s : String) : stripDollar ("$" ++ s) = s := by
  apply string_ext
  show (("$" ++ s).data.drop 1) = s.data
  rw [data_append]
  rfl

theorem optSlot_false_space_head (y : String) :
    ∃ t, (joinSep " " [optSlot false, y]).data = ' ' :: t := by
  refine ⟨y.data, ?_⟩
  show ((optSlot false ++ " ") ++ y).data = _
  rw [data_append, data_append]
  rfl

theorem optSlot_false_space_head3 (y z : String) :
    ∃ t, (joinSep " " [optSlot false, y, z]).data = ' ' :: t := by
  refine ⟨((y ++ " ") ++ z).data, ?_⟩
  show ((optSlot false ++ " ") ++ ((y ++ " ") ++ z)).data = _
  rw [data_append, data_append]
  rfl

theorem getMatchString_structured_space (bp : BindParam) (m : MatchI)
    (hst : m.isStructuredNonOptional = true) :
    ∀ s bp', getMatchString bp m = .ok (s, bp') →
      ∃ t, s.data = ' ' :: t := by
  cases m with
  | str s0 => simp [MatchI.isStructuredNonOptional] at hst
  | multiple nodes opt =>
    have hopt : opt = false := by
      simpa [MatchI.isStructuredNonOptional] using hst
    subst hopt
    intro s bp' h
    cases hm : mapNodes bp nodes with
    | error e =>
      simp only [getMatchString, hm] at h
      exact Except.noConfusion h
    | ok r =>
      simp only [getMatchString, hm, Except.ok.injEq, Prod.mk.injEq] at h
      obtain ⟨hs, _⟩ := h
      subst hs
      exact optSlot_false_space_head3 "MATCH" (joinSep ", " r.1)
  | related els opt =>
    have hopt : opt = false := by
      simpa [MatchI.isStructuredNonOptional] using hst
    subst hopt
    intro s bp' h
    cases hm : goRelated bp 0 els with
    | error e =>
      simp only [getMatchString, hm] at h
      exact Except.noConfusion h
    | ok r =>
      simp only [getMatchString, hm, Except.ok.injEq, Prod.mk.injEq] at h
      obtain ⟨hs, _⟩ := h
      subst hs
      exact optSlot_false_space_head3 "MATCH" (joinSep "" r.1)
  | literal node opt =>
    have hopt : opt = false := by
      simpa [MatchI.isStructuredNonOptional] using hst
    subst hopt
    intro s bp' h
    cases hm : getNodeString bp node with
    | error e =>
      simp only [getMatchString, hm] at h
      exact Except.noConfusion h
    | ok r =>
      simp only [getMatchString, hm, Except.ok.injEq, Prod.mk.injEq] at h
      obtain ⟨hs, _⟩ := h
      subst hs
      exact optSlot_false_space_head ("MATCH " ++ r.1)
  | nodeForm n opt =>
    have hopt : opt = false := by
      simpa [MatchI.isStructuredNonOptional] using hst
    subst hopt
    intro s bp' h
    cases hm : getNodeString bp (.obj n) with
    | error e =>
      simp only [getMatchString, hm] at h
      exact Except.noConfusion h
    | ok r =>
      simp only [getMatchString, hm, Except.ok.injEq, Prod.mk.injEq] at h
      obtain ⟨hs, _⟩ := h
      subst hs
      exact optSlot_false_space_head ("MATCH " ++ r.1)

theorem renderClauses_cons_match (bp : BindParam) (m : MatchI)
    (rest : List ParameterI) (parts : List String) (bpF : BindParam)
    (h : renderClauses bp (.matchP m :: rest) = .ok (parts, bpF)) :
    ∃ s bp2 parts2, getMatchString bp m = .ok (s, bp2) ∧
      renderClauses bp2 rest = .ok (parts2, bpF) ∧ parts = s :: parts2 := by
  cases hm : getMatchString bp m with
  | error e =>
    simp only [renderClauses, hm] at h
    exact Except.noConfusion h
  | ok r =>
    obtain ⟨s0, bp2⟩ := r
    cases hr : renderClauses bp2 rest with
    | error e =>
      simp only [renderClauses, hm, hr] at h
      exact Except.noConfusion h
    | ok rs =>
      obtain ⟨parts0, bpF0⟩ := rs
      simp only [renderClauses, hm, hr, Except.ok.injEq, Prod.mk.injEq] at h
      obtain ⟨hparts, hbp⟩ := h
      exact ⟨s0, bp2, parts0, rfl, by rw [← hbp]; exact hr, hparts.symm⟩

/-- C7: a predicate compiled in text mode from `\x7ba: \x7bp1: "x", p2: 5\x7d\x7d`
renders `a.p1 = $p1 AND a.p2 = $p2`; the table maps `p1` to `"x"` and
`p2` to `5`; the two placeholder names differ; fragment order follows
the insertion order of `p1` then `p2`. -/
theorem c7_text_mode_example :
    (Where.new [("a", [("p1", .supported (.single (.str "x"))),
        ("p2", .supported (.single (.num 5)))])] none).getStatement .text =
      .ok "a.p1 = $p1 AND a.p2 = $p2" ∧
    (Where.new [("a", [("p1", .supported (.single (.str "x"))),
        ("p2", .supported (.single (.num 5)))])] none).bindParam.entries =
      [("p1", .single (.str "x")), ("p2", .single (.num 5))] ∧
    "p1" ≠ "p2" :=
  ⟨rfl, rfl, by decide⟩

/-- C8: a delete clause in identifier form renders `[DETACH ]DELETE`
followed by the identifiers joined with `, `, accepting a single
identifier or a list; in particular
`\x7bidentifiers: ["a","b"], detach: true\x7d` renders `DETACH DELETE a, b`. -/
theorem c8_delete_identifier_form (ids : OneOrMany String) (x : String)
    (detach : Bool) :
    getDeleteString (.identifiers ids detach) =
      some ((if detach then "DETACH " else "") ++ "DELETE " ++
        joinSep ", " ids.toList) ∧
    getDeleteString (.identifiers (.one x) detach) =
      getDeleteString (.identifiers (.many [x]) detach) ∧
    getDeleteString (.identifiers (.many ["a", "b"]) true) =
      some "DETACH DELETE a, b" :=
  ⟨rfl, rfl, rfl⟩

/-- C9: a delete or remove descriptor matching none of the recognized
shapes produces no fragment at all (the renderer falls through and
returns `undefined`), while create/merge throws a constraint error with
the offending value attached. -/
theorem c9_unrecognized_shapes (tag : String) (bp : BindParam)
    (mode : CMMode) :
    getDeleteString (.unrecognized tag) = none ∧
    getRemoveString (.unrecognized tag) = none ∧
    getCreateOrMergeString bp (.unrecognized tag) mode =
      .error ⟨"Invanid create parameter", some tag⟩ :=
  ⟨rfl, rfl, rfl⟩

/-- C5: rendering `getStatement` in object mode succeeds exactly when
every accumulated operator is `equals`; an `in` tuple (e.g. from
`\x7ba: \x7bp1: \x7bin: [1,2,3]\x7d\x7d\x7d`) makes the object-mode render a hard
error, while text mode renders every tuple (using `IN` for the `in`
operator) without error. -/
theorem c5_object_mode_requires_equals (w : Where) :
    (exceptIsOk (w.getStatement .object) = true ↔
      ∀ d ∈ w.identifierPropertyData, d.operator = .equals) ∧
    w.getStatement .text = .ok (joinSep " AND "
      (w.identifierPropertyData.map
        (fun d => whereFragment .text d (textOp d.operator)))) ∧
    (Where.new [("a", [("p1", .opIn [.num 1, .num 2, .num 3])])]
        none).getStatement .object =
      .error ⟨"The only operator which is supported for object mode is \"equals\"",
        some "in"⟩ := by
  refine ⟨?_, getStatement_text w, rfl⟩
  have hbridge : exceptIsOk (w.getStatement .object) =
      exceptIsOk (statementPartsE .object w.identifierPropertyData) := by
    unfold Where.getStatement
    cases statementPartsE .object w.identifierPropertyData with
    | error e => rfl
    | ok parts => rfl
  rw [hbridge]
  exact statementPartsE_object_isOk _

/-- C2 counterexample: a predicate value passing neither guard (modelled
by `WhereValuesI.unsupported`) does not abort compilation: the `Where`
built from `\x7ba: \x7bp1: <unsupported>, p2: 5\x7d\x7d` compiles without any
error, silently skipping `p1` (no tuple and no bind entry for it), so
the claimed hard error does not exist. -/
theorem c2_counterexample :
    (Where.new [("a", [("p1", .unsupported "plain object"),
        ("p2", .supported (.single (.num 5)))])]
      none).identifierPropertyData = [⟨"a", "p2", "$p2", .equals⟩] ∧
    (Where.new [("a", [("p1", .unsupported "plain object"),
        ("p2", .supported (.single (.num 5)))])] none).getStatement .text =
      .ok "a.p2 = $p2" ∧
    (Where.new [("a", [("p1", .unsupported "plain object"),
        ("p2", .supported (.single (.num 5)))])] none).bindParam.entries =
      [("p2", .single (.num 5))] :=
  ⟨rfl, rfl, rfl⟩

/-- C2 (amended): a predicate value that passes neither the supported-
types guard nor the set-membership guard is silently skipped — the
accumulation loop behaves as if the pair were filtered out, raising no
error. -/
theorem c2_unsupported_values_skipped
    (pairs : List (String × String × WhereValuesI)) (w : Where) :
    pairs.foldl applyPair w =
      (pairs.filter (fun x => isNeo4jSupportedTypesB x.2.2 ||
        isWhereInB x.2.2)).foldl applyPair w := by
  induction pairs generalizing w with
  | nil => rfl
  | cons x rest ih =>
    obtain ⟨id, prop, v⟩ := x
    cases v with
    | supported nv =>
      simp only [List.foldl_cons, List.filter_cons, isNeo4jSupportedTypesB,
        Bool.true_or, if_pos]
      exact ih _
    | opIn l =>
      simp only [List.foldl_cons, List.filter_cons, isNeo4jSupportedTypesB,
        isWhereInB, Bool.false_or, if_pos]
      exact ih _
    | unsupported tag =>
      simp only [List.foldl_cons, List.filter_cons, isNeo4jSupportedTypesB,
        isWhereInB, Bool.or_self, Bool.false_eq_true, if_neg]
      have happ : applyPair w (id, prop, WhereValuesI.unsupported tag) = w :=
        rfl
      rw [happ]
      exact ih w

/-- C3: evaluating the code on the claimed scenario — `Where` built from
`\x7ba: \x7bp1: "x", p2: 5\x7d\x7d` followed by `addParams(\x7ba: \x7bp1: "y"\x7d\x7d)` —
shows three accumulated fragments, not one per flattened pair: the old
`p1`/`p2` tuples survive (with `p1` still bound to `"x"`), a third `p1`
tuple bound to `"y"` is appended, and the identifier-level shallow
merge drops `p2` from the flattened params entirely. -/
theorem c3_addparams_accumulates :
    (whereChain [("a", [("p1", .supported (.single (.str "x"))),
        ("p2", .supported (.single (.num 5)))])]
      [("a", [("p1", .supported (.single (.str "y")))])]
      ⟨[]⟩).getStatement .text =
      .ok "a.p1 = $p1 AND a.p2 = $p2 AND a.p1 = $p1__1" ∧
    (whereChain [("a", [("p1", .supported (.single (.str "x"))),
        ("p2", .supported (.single (.num 5)))])]
      [("a", [("p1", .supported (.single (.str "y")))])]
      ⟨[]⟩).identifierPropertyData.length = 3 ∧
    (whereChain [("a", [("p1", .supported (.single (.str "x"))),
        ("p2", .supported (.single (.num 5)))])]
      [("a", [("p1", .supported (.single (.str "y")))])]
      ⟨[]⟩).bindParam.entries =
      [("p1", .single (.str "x")), ("p2", .single (.num 5)),
        ("p1__1", .single (.str "y"))] ∧
    objAssign (whereChain [("a", [("p1", .supported (.single (.str "x"))),
        ("p2", .supported (.single (.num 5)))])]
      [("a", [("p1", .supported (.single (.str "y")))])]
      ⟨[]⟩).rawParams =
      [("a", [("p1", .supported (.single (.str "y")))])] :=
  ⟨rfl, rfl, rfl, rfl⟩

/-- C1: over one shared Bind-Parameter Table with distinct names, a
predicate built from initial params plus a later `addParams` call,
composed with a limit clause on the same table, generates
pairwise-distinct placeholder names; the final table registers each of
them exactly once; and the rendered text-mode statement is built from
exactly those placeholder names. -/
theorem c1_bind_table_unique (bp0 : BindParam)
    (ps1 ps2 : WhereParamsByIdentifierI) (n : Int)
    (h0 : bp0.names.Nodup) :
    ∀ lname bpF,
      (whereChain ps1 ps2 bp0).bindParam.getUniqueNameAndAdd "limit"
        (.single (.neoInt n)) = (lname, bpF) →
      bpF.names.Nodup ∧
      ((whereChain ps1 ps2 bp0).tupleNames ++ ["$" ++ lname]).Nodup ∧
      (∀ x ∈ (whereChain ps1 ps2 bp0).tupleNames ++ ["$" ++ lname],
        bpF.names.count (stripDollar x) = 1) ∧
      getLimitString (whereChain ps1 ps2 bp0).bindParam (.int n) =
        ("LIMIT $" ++ lname, bpF) ∧
      (whereChain ps1 ps2 bp0).getStatement .text = .ok (joinSep " AND "
        ((whereChain ps1 ps2 bp0).identifierPropertyData.map
          (fun d => whereFragment .text d (textOp d.operator)))) := by
  intro lname bpF hlim
  have hInv : WhereInv (whereChain ps1 ps2 bp0) :=
    (addParams_inv ps2 (whereNew_inv ps1 bp0 h0).1).1
  obtain ⟨hbp, htup, hmem⟩ := hInv
  obtain ⟨hfresh, hnames⟩ := getUniqueNameAndAdd_spec
    (whereChain ps1 ps2 bp0).bindParam "limit" (.single (.neoInt n))
  simp only [hlim] at hfresh hnames
  have hFnodup : bpF.names.Nodup := by
    rw [hnames]
    simp [List.nodup_append, hbp, hfresh]
  refine ⟨hFnodup, ?_, ?_, ?_, getStatement_text _⟩
  · rw [List.nodup_append]
    refine ⟨htup, List.nodup_singleton _, ?_⟩
    intro x hx hx2
    simp only [List.mem_singleton] at hx2
    obtain ⟨d, hd, hds⟩ := List.mem_map.mp hx
    obtain ⟨nm, hn1, hn2⟩ := hmem d hd
    subst hx2
    have heq := dollar_inj (hds.symm.trans hn1)
    rw [heq] at hfresh
    exact hfresh hn2
  · intro x hx
    rcases List.mem_append.mp hx with hx1 | hx2
    · obtain ⟨d, hd, hds⟩ := List.mem_map.mp hx1
      obtain ⟨nm, hn1, hn2⟩ := hmem d hd
      have hxsd : stripDollar x = nm := by
        rw [← hds, hn1, stripDollar_dollar]
      rw [hxsd]
      apply List.count_eq_one_of_mem hFnodup
      rw [hnames]
      exact List.mem_append.mpr (.inl hn2)
    · simp only [List.mem_singleton] at hx2
      subst hx2
      rw [stripDollar_dollar]
      apply List.count_eq_one_of_mem hFnodup
      rw [hnames]
      simp
  · show ("LIMIT $" ++ ((whereChain ps1 ps2 bp0).bindParam.getUniqueNameAndAdd
        "limit" (.single (.neoInt n))).1,
      ((whereChain ps1 ps2 bp0).bindParam.getUniqueNameAndAdd
        "limit" (.single (.neoInt n))).2) = ("LIMIT $" ++ lname, bpF)
    rw [hlim]

theorem c1_bind_table_unique_witness :
    ((⟨[]⟩ : BindParam).names.Nodup) ∧
    ((whereChain [("a", [("p1", .supported (.single (.str "x")))])]
        [("a", [("p1", .opIn [.num 1])])] ⟨[]⟩).bindParam.getUniqueNameAndAdd
      "limit" (.single (.neoInt 5)) =
      ("limit", ⟨[("p1", .single (.str "x")), ("p1__1", .list [.num 1]),
        ("limit", .single (.neoInt 5))]⟩)) ∧
    ((whereChain [("a", [("p1", .supported (.single (.str "x")))])]
        [("a", [("p1", .opIn [.num 1])])] ⟨[]⟩).tupleNames ++
      ["$" ++ "limit"]).Nodup ∧
    (∀ x ∈ (whereChain [("a", [("p1", .supported (.single (.str "x")))])]
        [("a", [("p1", .opIn [.num 1])])] ⟨[]⟩).tupleNames ++
      ["$" ++ "limit"],
      (BindParam.mk [("p1", .single (.str "x")), ("p1__1", .list [.num 1]),
        ("limit", .single (.neoInt 5))]).names.count (stripDollar x) = 1) :=
  ⟨List.nodup_nil, rfl,
    (c1_bind_table_unique ⟨[]⟩
      [("a", [("p1", .supported (.single (.str "x")))])]
      [("a", [("p1", .opIn [.num 1])])] 5 List.nodup_nil "limit"
      ⟨[("p1", .single (.str "x")), ("p1__1", .list [.num 1]),
        ("limit", .single (.neoInt 5))]⟩ rfl).2.1,
    (c1_bind_table_unique ⟨[]⟩
      [("a", [("p1", .supported (.single (.str "x")))])]
      [("a", [("p1", .opIn [.num 1])])] 5 List.nodup_nil "limit"
      ⟨[("p1", .single (.str "x")), ("p1__1", .list [.num 1]),
        ("limit", .single (.neoInt 5))]⟩ rfl).2.2.1⟩

/-- C4: in a related pattern of a match, create or merge clause, a
successful run implies every odd-indexed (0-based) element passed the
relationship guard and the fragments (one per element) are concatenated
in order with no separator; any odd-indexed element failing the guard
forces a hard error, and when all elements before the first failing odd
index render successfully the error is exactly
`even argument of related is not a relationship`. -/
theorem c4_related_alternation (bp : BindParam) (els : List RelatedElement)
    (opt : Bool) (mode : CMMode) :
    (∀ parts bpF, goRelated bp 0 els = .ok (parts, bpF) →
      (∀ i (h : i < els.length), i % 2 = 1 →
        isRelationship (els.get ⟨i, h⟩) = true) ∧
      parts.length = els.length ∧
      getMatchString bp (.related els opt) =
        .ok (joinSep " " [optSlot opt, "MATCH", joinSep "" parts], bpF) ∧
      getCreateOrMergeString bp (.related els) mode =
        .ok (joinSep " " [keywordFor mode, joinSep "" parts], bpF)) ∧
    ((∃ i, ∃ h : i < els.length, i % 2 = 1 ∧
        isRelationship (els.get ⟨i, h⟩) = false) →
      (∃ e, getMatchString bp (.related els opt) = .error e) ∧
      (∃ e, getCreateOrMergeString bp (.related els) mode = .error e)) ∧
    (∀ i (h : i < els.length) parts0 bpT, i % 2 = 1 →
      isRelationship (els.get ⟨i, h⟩) = false →
      goRelated bp 0 (els.take i) = .ok (parts0, bpT) →
      getMatchString bp (.related els opt) = .error relatedShapeError ∧
      getCreateOrMergeString bp (.related els) mode =
        .error relatedShapeError) := by
  refine ⟨?_, ?_, ?_⟩
  · intro parts bpF h
    obtain ⟨hlen, hall⟩ := goRelated_ok_spec els bp 0 parts bpF h
    refine ⟨?_, hlen, ?_, ?_⟩
    · intro i hi hodd
      exact hall i hi (by omega)
    · simp only [getMatchString, h]
    · simp only [getCreateOrMergeString, h]
  · intro ⟨i, hi, hodd, hbad⟩
    obtain ⟨e, he⟩ := goRelated_error_of_bad els bp 0 ⟨i, hi, by omega, hbad⟩
    exact ⟨⟨e, by simp only [getMatchString, he]⟩,
      ⟨e, by simp only [getCreateOrMergeString, he]⟩⟩
  · intro i h parts0 bpT hodd hbad htake
    have hlen : (els.take i).length = i := by
      simp only [List.length_take]
      omega
    have hdrop : els.drop i = els.get ⟨i, h⟩ :: els.drop (i + 1) := by
      rw [List.drop_eq_getElem_cons h]
      rfl
    have hbadE : isRelationship (els.get ⟨i, h⟩) = false := hbad
    have hstepErr : goRelated bpT i (els.drop i) = .error relatedShapeError := by
      rw [hdrop]
      have hrel : ¬ isRelationship (els.get ⟨i, h⟩) = true := by
        rw [hbadE]
        simp
      simp only [goRelated, if_pos hodd, if_neg hrel]
    have hsplit := goRelated_append (els.take i) (els.drop i) bp 0
    rw [List.take_append_drop] at hsplit
    rw [htake, hlen] at hsplit
    simp only [Nat.zero_add, hstepErr] at hsplit
    exact ⟨by simp only [getMatchString, hsplit],
      by simp only [getCreateOrMergeString, hsplit]⟩

theorem c4_related_alternation_witness :
    (goRelated (⟨[]⟩ : BindParam) 0 [RelatedElement.nodeEl (.str "(a)"),
      RelatedElement.relEl (.str "-[r]->"),
      RelatedElement.nodeEl (.str "(b)")] =
      .ok (["(a)", "-[r]->", "(b)"], ⟨[]⟩)) ∧
    (getMatchString ⟨[]⟩ (.related [RelatedElement.nodeEl (.str "(a)"),
      RelatedElement.relEl (.str "-[r]->"),
      RelatedElement.nodeEl (.str "(b)")] false) =
      .ok (" MATCH (a)-[r]->(b)", ⟨[]⟩)) ∧
    (isRelationship ([RelatedElement.nodeEl (.str "(a)"),
      RelatedElement.nodeEl (.str "(b)")].get ⟨1, by decide⟩) = false) ∧
    (goRelated (⟨[]⟩ : BindParam) 0 ([RelatedElement.nodeEl (.str "(a)"),
      RelatedElement.nodeEl (.str "(b)")].take 1) = .ok (["(a)"], ⟨[]⟩)) ∧
    (getMatchString ⟨[]⟩ (.related [RelatedElement.nodeEl (.str "(a)"),
      RelatedElement.nodeEl (.str "(b)")] false) =
      .error relatedShapeError) ∧
    (getCreateOrMergeString ⟨[]⟩ (.related [RelatedElement.nodeEl (.str "(a)"),
      RelatedElement.nodeEl (.str "(b)")]) .create =
      .error relatedShapeError) :=
  ⟨rfl,
    (((c4_related_alternation ⟨[]⟩ [RelatedElement.nodeEl (.str "(a)"),
        RelatedElement.relEl (.str "-[r]->"),
        RelatedElement.nodeEl (.str "(b)")] false .create).1
      ["(a)", "-[r]->", "(b)"] ⟨[]⟩ rfl).2.2.1).trans (by rfl),
    rfl, rfl,
    ((c4_related_alternation ⟨[]⟩ [RelatedElement.nodeEl (.str "(a)"),
        RelatedElement.nodeEl (.str "(b)")] false .create).2.2 1 (by decide)
      ["(a)"] ⟨[]⟩ (by decide) rfl rfl).1,
    ((c4_related_alternation ⟨[]⟩ [RelatedElement.nodeEl (.str "(a)"),
        RelatedElement.nodeEl (.str "(b)")] false .create).2.2 1 (by decide)
      ["(a)"] ⟨[]⟩ (by decide) rfl rfl).2⟩

/-- C6: a successfully compiled statement is the clause fragments,
rendered in the given order, joined with a newline and with every
whitespace run collapsed to a single space, so the output is a
single-line statement (its only whitespace character is the space). -/
theorem c6_statement_assembly (params : List ParameterI) (bp0 : BindParam)
    (qb : QueryBuilder) (h : QueryBuilder.build params bp0 = .ok qb) :
    ∃ parts bpF, renderClauses bp0 params = .ok (parts, bpF) ∧
      qb.statement = collapseWs (joinSep "\n" parts) ∧
      qb.bindParam = bpF ∧
      ∀ c ∈ qb.statement.data, isWsChar c = true → c = ' ' := by
  cases hr : renderClauses bp0 params with
  | error e =>
    simp only [QueryBuilder.build, hr] at h
    exact Except.noConfusion h
  | ok r =>
    obtain ⟨parts, bpF⟩ := r
    simp only [QueryBuilder.build, hr, Except.ok.injEq] at h
    subst h
    exact ⟨parts, bpF, rfl, rfl, rfl, collapseWs_singleLine _⟩

theorem c6_statement_assembly_witness :
    (QueryBuilder.build [.matchP (.str "(a:Person)"), .ret (.strs ["a"])]
      ⟨[]⟩ = .ok ⟨[.matchP (.str "(a:Person)"), .ret (.strs ["a"])],
        "MATCH (a:Person) RETURN a", ⟨[]⟩⟩) ∧
    (∃ parts bpF, renderClauses ⟨[]⟩
        [.matchP (.str "(a:Person)"), .ret (.strs ["a"])] =
        .ok (parts, bpF) ∧
      (QueryBuilder.mk [.matchP (.str "(a:Person)"), .ret (.strs ["a"])]
        "MATCH (a:Person) RETURN a" ⟨[]⟩).statement =
        collapseWs (joinSep "\n" parts) ∧
      (QueryBuilder.mk [.matchP (.str "(a:Person)"), .ret (.strs ["a"])]
        "MATCH (a:Person) RETURN a" ⟨[]⟩).bindParam = bpF ∧
      ∀ c ∈ (QueryBuilder.mk [.matchP (.str "(a:Person)"),
        .ret (.strs ["a"])] "MATCH (a:Person) RETURN a" ⟨[]⟩).statement.data,
        isWsChar c = true → c = ' ') :=
  ⟨rfl, c6_statement_assembly
    [.matchP (.str "(a:Person)"), .ret (.strs ["a"])] ⟨[]⟩
    ⟨[.matchP (.str "(a:Person)"), .ret (.strs ["a"])],
      "MATCH (a:Person) RETURN a", ⟨[]⟩⟩ rfl⟩

/-- C10: a match clause given as a structured pattern with the optional
flag false renders a fragment that begins with a space (the empty
OPTIONAL slot joined with a space), and since the final whitespace
collapse does not trim, a statement whose first clause is such a match
begins with a leading space. -/
theorem c10_structured_match_leading_space (bp : BindParam) (m : MatchI)
    (hst : m.isStructuredNonOptional = true) :
    (∀ s bp2, getMatchString bp m = .ok (s, bp2) →
      s.data.head? = some ' ') ∧
    (∀ rest qb, QueryBuilder.build (.matchP m :: rest) bp = .ok qb →
      qb.statement.data.head? = some ' ') := by
  constructor
  · intro s bp2 h
    obtain ⟨t, ht⟩ := getMatchString_structured_space bp m hst s bp2 h
    simp [ht]
  · intro rest qb h
    cases hr : renderClauses bp (.matchP m :: rest) with
    | error e =>
      simp only [QueryBuilder.build, hr] at h
      exact Except.noConfusion h
    | ok r =>
      obtain ⟨parts, bpF⟩ := r
      simp only [QueryBuilder.build, hr, Except.ok.injEq] at h
      subst h
      obtain ⟨s, bp2, parts2, hm, hrest, hparts⟩ :=
        renderClauses_cons_match bp m rest parts bpF hr
      subst hparts
      obtain ⟨t, ht⟩ := getMatchString_structured_space bp m hst s bp2 hm
      obtain ⟨u, hu⟩ := @joinSep_cons_head "\n" s parts2 t ht
      exact collapseWs_head_space hu

theorem c10_structured_match_leading_space_witness :
    ((MatchI.nodeForm ⟨"a", .label "Person", .noInner⟩
      false).isStructuredNonOptional = true) ∧
    (QueryBuilder.build
      [.matchP (.nodeForm ⟨"a", .label "Person", .noInner⟩ false)] ⟨[]⟩ =
      .ok ⟨[.matchP (.nodeForm ⟨"a", .label "Person", .noInner⟩ false)],
        " MATCH (a:Person)", ⟨[]⟩⟩) ∧
    ((QueryBuilder.mk
      [.matchP (.nodeForm ⟨"a", .label "Person", .noInner⟩ false)]
      " MATCH (a:Person)" ⟨[]⟩).statement.data.head? = some ' ') :=
  ⟨rfl, rfl,
    (c10_structured_match_leading_space ⟨[]⟩
      (.nodeForm ⟨"a", .label "Person", .noInner⟩ false) rfl).2 []
      ⟨[.matchP (.nodeForm ⟨"a", .label "Person", .noInner⟩ false)],
        " MATCH (a:Person)", ⟨[]⟩⟩ rfl⟩

end Neogma
